import Mathlib

/-!
Verification of the EEG live-stream decoder and stream processor
(`archive/eeg-scanner/live-stream.js`) against its specification.

A frame delivered by the transport is modelled as a `List Nat` of bytes.
JavaScript numbers that are always nonnegative integers in the code are
modelled as `Nat`; the sign-extended 24-bit sample value is an `Int`;
floating-point divisions (`voltageUv = value / adcScale`) are modelled
over `ℚ`; the JavaScript `NaN` produced by `x % 0` is modelled as `none`
in an `Option Nat`.
-/

namespace EEG

/-- Buffer index access `data[i]`; in the decoder every access is in
bounds once the length guard has passed, so the default value is never
produced on the paths the theorems talk about. -/
def byteAt (data : List Nat) (i : Nat) : Nat :=
  data.getD i 0

/-- The hand-written 24-bit little-endian read of `decodePacket`:
`data[offset] | (data[offset + 1] << 8) | (data[offset + 2] << 16)`. -/
def read24LE (data : List Nat) (offset : Nat) : Nat :=
  byteAt data offset ||| (byteAt data (offset + 1) <<< 8) ||| (byteAt data (offset + 2) <<< 16)

/-- Sign extension step of `decodePacket`:
`if (value & 0x800000) value = value - 0x1000000`. -/
def signExtend24 (value : Nat) : Int :=
  if value &&& 0x800000 ≠ 0 then (value : Int) - 0x1000000 else (value : Int)

/-- `Buffer.readUInt16LE`. -/
def readUInt16LE (data : List Nat) (offset : Nat) : Nat :=
  byteAt data offset + byteAt data (offset + 1) * 256

/-- `Buffer.readUInt32LE`. -/
def readUInt32LE (data : List Nat) (offset : Nat) : Nat :=
  byteAt data offset + byteAt data (offset + 1) * 2 ^ 8 +
    byteAt data (offset + 2) * 2 ^ 16 + byteAt data (offset + 3) * 2 ^ 24

/-- JavaScript remainder `a % b` restricted to nonnegative integer
operands: equal to `Nat.mod` for `b ≠ 0`, and `NaN` — modelled as
`none` — when `b = 0`. -/
def jsModNat (a b : Nat) : Option Nat :=
  if b = 0 then none else some (a % b)

/-- `Buffer.toString` with encoding `ascii` masks every byte with
`0x7F`; the `start`/`end` arguments are clamped to the buffer length
(modelled by `drop`/`take`). -/
def asciiSlice (data : List Nat) (start stop : Nat) : List Nat :=
  ((data.drop start).take (stop - start)).map (fun b => b &&& 127)

/-- One decoded sample, as pushed by `decodePacket` into
`result.samples`.  `channel` is `none` exactly when the JavaScript
value would be `NaN` (`sampleIdx % 0`); `rawHex` is the 7-byte record
slice (the hex string is modelled by the bytes it prints). -/
structure Sample where
  sampleNumber : Nat
  sampleIndex : Nat
  channel : Option Nat
  rawValue : Int
  voltageUv : ℚ
  rawHex : List Nat
deriving DecidableEq, Repr

/-- The decoded packet object built by `decodePacket`. -/
structure Packet where
  header : List Nat
  packetType : Nat
  numChannels : Nat
  payloadSize : Nat
  samples : List Sample
  deviceModel : Option (List Nat)
deriving DecidableEq, Repr

/-- The only throw site of `decodePacket` is the length guard
(`Packet too short`). -/
inductive DecodeError where
  | TooShort : Nat → DecodeError
deriving DecidableEq, Repr

/-- The body of one iteration of the type-2 sample loop of
`decodePacket`, reading the 7-byte record at `offset` and producing the
object pushed onto `result.samples` when it already holds `num`
samples. -/
def mkSample (adcScale : ℚ) (data : List Nat) (numChannels offset num : Nat) : Sample :=
  let value := signExtend24 (read24LE data offset)
  let sampleIdx := readUInt16LE data (offset + 4)
  { sampleNumber := num
    sampleIndex := sampleIdx
    channel := jsModNat sampleIdx numChannels
    rawValue := value
    voltageUv := (value : ℚ) / adcScale
    rawHex := (data.drop offset).take 7 }

/-- The `while (offset + 7 <= data.length - 10)` loop of `decodePacket`,
written with a fuel argument for structural recursion; each iteration
advances `offset` by 7, so `data.length` fuel always suffices. -/
def parseSamplesAux (adcScale : ℚ) (data : List Nat) (numChannels : Nat) :
    Nat → Nat → Nat → List Sample
  | 0, _, _ => []
  | fuel + 1, offset, num =>
    if offset + 7 ≤ data.length - 10 then
      mkSample adcScale data numChannels offset num ::
        parseSamplesAux adcScale data numChannels fuel (offset + 7) (num + 1)
    else
      []

/-- The full type-2 sample loop, starting at offset 12 with an empty
`result.samples`. -/
def parseSamples (adcScale : ℚ) (data : List Nat) (numChannels : Nat) : List Sample :=
  parseSamplesAux adcScale data numChannels data.length 12 0

/-- `EEGStreamProcessor.decodePacket` (live-stream.js lines 87–140):
length guard, header / type / channel-count / payload-size/payload-size reads, then the
type-1 device-model branch, the type-2 sample loop, or the pass-through
for any other packet type.  The first four bytes are read into the
result but never compared against anything. -/
def decodePacket (adcScale : ℚ) (data : List Nat) : Except DecodeError Packet :=
  if data.length < 12 then
    .error (.TooShort data.length)
  else
    let header := asciiSlice data 0 4
    let packetType := byteAt data 5
    let numChannels := byteAt data 7
    let payloadSize := readUInt32LE data 8
    if packetType = 1 then
      .ok { header := header, packetType := packetType, numChannels := numChannels,
            payloadSize := payloadSize, samples := [],
            deviceModel := some ((asciiSlice data 12 17).filter (fun b => b ≠ 0)) }
    else if packetType = 2 then
      .ok { header := header, packetType := packetType, numChannels := numChannels,
            payloadSize := payloadSize,
            samples := parseSamples adcScale data numChannels, deviceModel := none }
    else
      .ok { header := header, packetType := packetType, numChannels := numChannels,
            payloadSize := payloadSize, samples := [], deviceModel := none }

end EEG

namespace EEG

/-- The literal 16-byte status frame of the spec regression test:
`44 41 54 41 00 01 00 03 20 00 00 00 54 48 32 31`. -/
def c9Frame : List Nat :=
  [0x44, 0x41, 0x54, 0x41, 0x00, 0x01, 0x00, 0x03, 0x20, 0x00, 0x00, 0x00, 0x54, 0x48, 0x32, 0x31]

/-- A 29-byte type-2 frame with channel count 3 holding exactly one
7-byte sample record `01 02 03 00 05 00 09` followed by a 10-byte
trailer.  The u16 at record bytes 4..6 is 5; the u16 at record bytes
5..7 is 2304. -/
def c2Frame : List Nat :=
  [0x44, 0x41, 0x54, 0x41, 0, 2, 0, 3, 7, 0, 0, 0,
   1, 2, 3, 0, 5, 0, 9,
   0, 0, 0, 0, 0, 0, 0, 0, 0, 0]

/-- Like `c2Frame` but with the channel-count byte (offset 7) zero. -/
def c10Frame : List Nat :=
  [0x44, 0x41, 0x54, 0x41, 0, 2, 0, 0, 7, 0, 0, 0,
   1, 2, 3, 0, 5, 0, 9,
   0, 0, 0, 0, 0, 0, 0, 0, 0, 0]

/-- A 29-byte type-2 frame whose single record carries the 24-bit value
`0x800001` (bit 23 set) in its first three bytes. -/
def c1Frame : List Nat :=
  [0x44, 0x41, 0x54, 0x41, 0, 2, 0, 1, 7, 0, 0, 0,
   0x01, 0x00, 0x80, 0, 5, 0, 9,
   0, 0, 0, 0, 0, 0, 0, 0, 0, 0]

/-- One `{time, voltage}` entry of a per-channel buffer of
`EEGStreamProcessor`. -/
structure BufferEntry where
  time : Nat
  voltage : ℚ
deriving DecidableEq, Repr

/-- `this.maxBufferSamples = Math.floor(this.windowDuration * this.samplingRate * 1.5)`
from the `EEGStreamProcessor` constructor. -/
def maxBufferSamples (windowDuration samplingRate : ℚ) : ℤ :=
  Int.floor (windowDuration * samplingRate * 1.5)

/-- One sample append of `processPacket`: `buffer.push(entry)` followed
by `buffer.shift()` when the length exceeds `maxBufferSamples`. -/
def pushTrim (maxBuf : ℤ) (buffer : List BufferEntry) (e : BufferEntry) : List BufferEntry :=
  let b := buffer ++ [e]
  if (b.length : ℤ) > maxBuf then b.tail else b

/-- Modelled from the spec: the band-power computation of this
repository lives in `process.py` / `live_eeg_stream.py`, which are not
among the available sources (the JavaScript `analyzeChannel` only
prints mean and variance and defers band powers to the Python script).
Per §4.4 an analysis result carries one absolute power per band Delta,
Theta, Alpha, Beta, Gamma. -/
structure BandPowers where
  delta : ℚ
  theta : ℚ
  alpha : ℚ
  beta : ℚ
  gamma : ℚ
deriving DecidableEq, Repr

/-- Modelled from the spec: total power across the five bands. -/
def totalPower (p : BandPowers) : ℚ :=
  p.delta + p.theta + p.alpha + p.beta + p.gamma

/-- Modelled from the spec: relative power per band = band power /
total power across the five bands, as a percentage. -/
def relativePower (p : BandPowers) : BandPowers :=
  { delta := p.delta / totalPower p * 100
    theta := p.theta / totalPower p * 100
    alpha := p.alpha / totalPower p * 100
    beta := p.beta / totalPower p * 100
    gamma := p.gamma / totalPower p * 100 }

/-- Handshake phases of the activation sequence of `streamEEGData`. -/
inductive HandshakePhase where
  | Idle
  | NotifyEnabled
  | Started
  | AltStarted
  | Streaming
deriving DecidableEq, Repr

/-- Handshake state: the phase together with
`EEGStreamProcessor.packetCount` and whether `CMD_ALT_START` has been
written. -/
structure HSState where
  phase : HandshakePhase
  packetCount : Nat
  altSent : Bool
deriving DecidableEq, Repr

/-- Events driving the activation sequence: `subscribeAsync`
(enableNotify), the `CMD_START_STREAM` write, arrival of one decoded
type-2 frame with samples (`processPacket` increments `packetCount`),
and the elapse of the 2-second wait before the
`packetCount === 0` check. -/
inductive HSEvent where
  | enableNotify
  | sendStart
  | samplePacket
  | timeout2s
deriving DecidableEq, Repr

/-- One event of the activation sequence of `streamEEGData`
(live-stream.js lines 248–302): subscribing enables notifications,
the start write begins the wait, each sample packet bumps
`packetCount` (and streaming is underway once the first arrives), and
the timeout check writes `CMD_ALT_START` exactly when
`packetCount === 0`. -/
def hsStep (s : HSState) : HSEvent → HSState
  | .enableNotify => if s.phase = .Idle then { s with phase := .NotifyEnabled } else s
  | .sendStart => if s.phase = .NotifyEnabled then { s with phase := .Started } else s
  | .samplePacket =>
    { phase := if s.phase = .Started ∨ s.phase = .AltStarted then .Streaming else s.phase
      packetCount := s.packetCount + 1
      altSent := s.altSent }
  | .timeout2s =>
    if s.packetCount = 0 then { s with phase := .AltStarted, altSent := true }
    else if s.phase = .Started then { s with phase := .Streaming } else s

/-- A fresh session starts with no packets received and no alternative
start issued. -/
def hsInit : HSState :=
  { phase := .Idle, packetCount := 0, altSent := false }

/-- Final state after an event sequence. -/
def hsRun (events : List HSEvent) : HSState :=
  events.foldl hsStep hsInit

/-- Every state visited while running an event sequence, the initial
state included. -/
def hsTrace (events : List HSEvent) : List HSState :=
  List.scanl hsStep hsInit events

/-- The event sequences of the claim: notify enable, start command,
then `k` sample packets arriving before the 2-second timeout check. -/
def c6Events (k : Nat) : List HSEvent :=
  [.enableNotify, .sendStart] ++ List.replicate k .samplePacket ++ [.timeout2s]

end EEG

namespace EEG

theorem parseSamplesAux_eq (adcScale : ℚ) (data : List Nat) (numChannels : Nat) :
    ∀ fuel offset num, (data.length - 10 - offset) / 7 ≤ fuel →
      parseSamplesAux adcScale data numChannels fuel offset num =
        (List.range ((data.length - 10 - offset) / 7)).map
          (fun i => mkSample adcScale data numChannels (offset + 7 * i) (num + i)) := by
  intro fuel
  induction fuel with
  | zero =>
    intro offset num hle
    have h0 : (data.length - 10 - offset) / 7 = 0 := by omega
    simp [parseSamplesAux, h0]
  | succ fuel ih =>
    intro offset num hle
    by_cases h : offset + 7 ≤ data.length - 10
    · have hcnt : (data.length - 10 - offset) / 7 = (data.length - 10 - (offset + 7)) / 7 + 1 := by
        omega
      rw [parseSamplesAux, if_pos h, ih (offset + 7) (num + 1) (by omega), hcnt,
        List.range_succ_eq_map, List.map_cons, List.map_map]
      congr 1
      apply List.map_congr_left
      intro i hi
      simp only [Function.comp_apply, Nat.succ_eq_add_one]
      have h1 : offset + 7 + 7 * i = offset + 7 * (i + 1) := by ring
      have h2 : num + 1 + i = num + (i + 1) := by ring
      rw [h1, h2]
    · have hcnt : (data.length - 10 - offset) / 7 = 0 := by omega
      rw [parseSamplesAux, if_neg h, hcnt]
      simp

theorem parseSamples_eq (adcScale : ℚ) (data : List Nat) (numChannels : Nat) :
    parseSamples adcScale data numChannels =
      (List.range ((data.length - 22) / 7)).map
        (fun i => mkSample adcScale data numChannels (12 + 7 * i) i) := by
  unfold parseSamples
  rw [parseSamplesAux_eq adcScale data numChannels data.length 12 0 (by omega)]
  have h1 : data.length - 10 - 12 = data.length - 22 := by omega
  rw [h1]
  apply List.map_congr_left
  intro i _
  simp

theorem decodePacket_type2 (adcScale : ℚ) (data : List Nat) (h12 : 12 ≤ data.length)
    (ht : byteAt data 5 = 2) :
    decodePacket adcScale data =
      .ok { header := asciiSlice data 0 4, packetType := 2, numChannels := byteAt data 7,
            payloadSize := readUInt32LE data 8,
            samples := (List.range ((data.length - 22) / 7)).map
              (fun i => mkSample adcScale data (byteAt data 7) (12 + 7 * i) i),
            deviceModel := none } := by
  rw [decodePacket, if_neg (by omega)]
  simp only [ht]
  norm_num [parseSamples_eq]

end EEG

namespace EEG

theorem lor_three_bytes (b0 b1 b2 : Nat) (h0 : b0 < 256) (h1 : b1 < 256) :
    b0 ||| b1 <<< 8 ||| b2 <<< 16 = b0 + b1 * 256 + b2 * 65536 := by
  have h0' : b0 < 2 ^ 8 := by omega
  have e1 : 2 ^ 8 * b1 + b0 = 2 ^ 8 * b1 ||| b0 := Nat.mul_add_lt_is_or h0' b1
  have hlt : 2 ^ 8 * b1 + b0 < 2 ^ 16 := by omega
  have e2 : 2 ^ 16 * b2 + (2 ^ 8 * b1 + b0) = 2 ^ 16 * b2 ||| (2 ^ 8 * b1 + b0) :=
    Nat.mul_add_lt_is_or hlt b2
  rw [Nat.shiftLeft_eq, Nat.shiftLeft_eq, Nat.lor_comm b0 (b1 * 2 ^ 8), mul_comm b1 (2 ^ 8),
    ← e1, Nat.lor_comm _ (b2 * 2 ^ 16), mul_comm b2 (2 ^ 16), ← e2]
  omega

theorem read24LE_eq (data : List Nat) (o : Nat) (h0 : byteAt data o < 256)
    (h1 : byteAt data (o + 1) < 256) :
    read24LE data o =
      byteAt data o + byteAt data (o + 1) * 256 + byteAt data (o + 2) * 65536 :=
  lor_three_bytes _ _ _ h0 h1

theorem signExtend24_eq (v : Nat) (hv : v < 2 ^ 24) :
    signExtend24 v = if v < 2 ^ 23 then (v : Int) else (v : Int) - 2 ^ 24 := by
  unfold signExtend24
  have hand : v &&& 0x800000 = (Nat.testBit v 23).toNat * 2 ^ 23 := by
    have h := Nat.and_two_pow v 23
    norm_num at h ⊢
    exact h
  have htb : Nat.testBit v 23 = decide (v / 2 ^ 23 % 2 = 1) := Nat.testBit_to_div_mod
  by_cases hlt : v < 2 ^ 23
  · have : Nat.testBit v 23 = false := by
      rw [htb]
      simp only [decide_eq_false_iff_not]
      omega
    rw [hand, this, if_pos hlt]
    norm_num
  · have : Nat.testBit v 23 = true := by
      rw [htb]
      simp only [decide_eq_true_eq]
      omega
    rw [hand, this, if_neg hlt]
    norm_num

end EEG

namespace EEG

theorem decodePacket_tooShort (adcScale : ℚ) (data : List Nat) (h : data.length < 12) :
    decodePacket adcScale data = .error (.TooShort data.length) := by
  rw [decodePacket, if_pos h]

theorem decodePacket_type1 (adcScale : ℚ) (data : List Nat) (h12 : 12 ≤ data.length)
    (ht : byteAt data 5 = 1) :
    decodePacket adcScale data =
      .ok { header := asciiSlice data 0 4, packetType := 1, numChannels := byteAt data 7,
            payloadSize := readUInt32LE data 8, samples := [],
            deviceModel := some ((asciiSlice data 12 17).filter (fun b => b ≠ 0)) } := by
  rw [decodePacket, if_neg (by omega)]
  simp [ht]

theorem decodePacket_ok (adcScale : ℚ) (data : List Nat) (h12 : 12 ≤ data.length) :
    ∃ p, decodePacket adcScale data = .ok p := by
  rw [decodePacket, if_neg (by omega)]
  by_cases h1 : byteAt data 5 = 1
  · simp [h1]
  · by_cases h2 : byteAt data 5 = 2 <;> simp [h1, h2]

/-- C7: `decodePacket` fails with the too-short error exactly when the
input holds fewer than 12 bytes; the error then records the input
length, and every input of at least 12 bytes decodes successfully. -/
theorem c7_tooShort_iff (adcScale : ℚ) (data : List Nat) :
    ((∃ e, decodePacket adcScale data = .error e) ↔ data.length < 12) ∧
    (data.length < 12 → decodePacket adcScale data = .error (.TooShort data.length)) ∧
    (12 ≤ data.length → ∃ p, decodePacket adcScale data = .ok p) := by
  refine ⟨⟨?_, ?_⟩, ?_, ?_⟩
  · intro ⟨e, he⟩
    by_contra hlen
    obtain ⟨p, hp⟩ := decodePacket_ok adcScale data (by omega)
    rw [hp] at he
    exact absurd he (by simp)
  · intro h
    exact ⟨.TooShort data.length, decodePacket_tooShort adcScale data h⟩
  · exact decodePacket_tooShort adcScale data
  · exact decodePacket_ok adcScale data

/-- Witness for C7 at the empty input and at twelve zero bytes. -/
theorem c7_witness :
    decodePacket 100 [] = .error (.TooShort 0) ∧
    ∃ p, decodePacket 100 (List.replicate 12 0) = .ok p :=
  ⟨(c7_tooShort_iff 100 []).2.1 (by decide),
   (c7_tooShort_iff 100 (List.replicate 12 0)).2.2 (by decide)⟩

/-- Counterexample to C8: twelve zero bytes have a header that is not
the ASCII tag, yet `decodePacket` succeeds instead of failing. -/
theorem c8_counterexample :
    (decodePacket 100 (List.replicate 12 0)).toOption.map Packet.header = some [0, 0, 0, 0] ∧
    [(0 : Nat), 0, 0, 0] ≠ [0x44, 0x41, 0x54, 0x41] := by
  decide

/-- C8 amended: `decodePacket` performs no header validation at all —
the first four bytes are stored in the result unchecked, and every
input of at least 12 bytes decodes successfully whatever those bytes
are; no bad-header error exists in the code. -/
theorem c8_no_header_validation (adcScale : ℚ) (data : List Nat) (h12 : 12 ≤ data.length) :
    ∃ p, decodePacket adcScale data = .ok p ∧ p.header = asciiSlice data 0 4 := by
  rw [decodePacket, if_neg (by omega)]
  by_cases h1 : byteAt data 5 = 1
  · simp [h1]
  · by_cases h2 : byteAt data 5 = 2 <;> simp [h1, h2]

/-- Witness for the amended C8 at twelve zero bytes. -/
theorem c8_witness :
    ∃ p, decodePacket 100 (List.replicate 12 0) = .ok p ∧
      p.header = asciiSlice (List.replicate 12 0) 0 4 :=
  c8_no_header_validation 100 (List.replicate 12 0) (by decide)

end EEG

namespace EEG

/-- C9: a type-1 frame yields a status packet whose device model is the
ASCII slice of bytes 12..17 with NUL bytes removed; in particular the
literal frame `44 41 54 41 00 01 00 03 20 00 00 00 54 48 32 31`
decodes to a status packet whose device model is the byte string
`TH21`. -/
theorem c9_deviceModel :
    (∀ (adcScale : ℚ) (data : List Nat), 12 ≤ data.length → byteAt data 5 = 1 →
      ∃ p, decodePacket adcScale data = .ok p ∧ p.packetType = 1 ∧
        p.deviceModel = some ((asciiSlice data 12 17).filter (fun b => b ≠ 0))) ∧
    (∃ p, decodePacket 100 c9Frame = .ok p ∧ p.packetType = 1 ∧
      p.deviceModel = some [0x54, 0x48, 0x32, 0x31]) := by
  constructor
  · intro adcScale data h12 ht
    exact ⟨_, decodePacket_type1 adcScale data h12 ht, rfl, rfl⟩
  · exact ⟨{ header := [0x44, 0x41, 0x54, 0x41], packetType := 1, numChannels := 3,
             payloadSize := 32, samples := [],
             deviceModel := some [0x54, 0x48, 0x32, 0x31] },
           by rfl, rfl, rfl⟩

/-- Witness for C9: the general part applied to the literal status
frame. -/
theorem c9_witness :
    ∃ p, decodePacket 100 c9Frame = .ok p ∧ p.packetType = 1 ∧
      p.deviceModel = some ((asciiSlice c9Frame 12 17).filter (fun b => b ≠ 0)) :=
  c9_deviceModel.1 100 c9Frame (by decide) (by decide)

/-- C10: the channel-count byte is never validated — with channel count
zero a type-2 frame long enough for one record still decodes
successfully, and every decoded sample has the `NaN` channel (modelled
as `none`) produced by the JavaScript remainder by zero. -/
theorem c10_zero_channels (adcScale : ℚ) (data : List Nat) (h29 : 29 ≤ data.length)
    (ht : byteAt data 5 = 2) (hch : byteAt data 7 = 0) :
    ∃ p, decodePacket adcScale data = .ok p ∧ p.samples ≠ [] ∧
      ∀ s ∈ p.samples, s.channel = none := by
  rw [decodePacket_type2 adcScale data (by omega) ht, hch]
  refine ⟨_, rfl, ?_, ?_⟩
  · simp only [ne_eq, List.map_eq_nil_iff, List.range_eq_nil]
    omega
  · intro s hs
    simp only [List.mem_map] at hs
    obtain ⟨i, _, rfl⟩ := hs
    simp [mkSample, jsModNat]

/-- Witness for C10 at a concrete 29-byte frame with channel-count
byte zero. -/
theorem c10_witness :
    ∃ p, decodePacket 100 c10Frame = .ok p ∧ p.samples ≠ [] ∧
      ∀ s ∈ p.samples, s.channel = none :=
  c10_zero_channels 100 c10Frame (by decide) (by decide) (by decide)

/-- C3: a type-2 frame of length `L` decodes to exactly the largest
number `k` of consecutive 7-byte records starting at offset 12 that
fit before the last 10 bytes (`k = (L - 22) / 7`), every decoded
record lies entirely below offset `L - 10`, and the bytes of sample
`i` are the 7-byte slice starting at `12 + 7 i`. -/
theorem c3_sample_count (adcScale : ℚ) (data : List Nat) (h12 : 12 ≤ data.length)
    (ht : byteAt data 5 = 2) :
    ∃ p, decodePacket adcScale data = .ok p ∧
      p.samples.length = (data.length - 22) / 7 ∧
      (0 < p.samples.length → 12 + 7 * p.samples.length ≤ data.length - 10) ∧
      (∀ m, 12 + 7 * m ≤ data.length - 10 → m ≤ p.samples.length) ∧
      (∀ i, i < p.samples.length → 12 + 7 * i + 7 ≤ data.length - 10) ∧
      (∀ i, i < p.samples.length →
        p.samples[i]? = some (mkSample adcScale data (byteAt data 7) (12 + 7 * i) i)) := by
  rw [decodePacket_type2 adcScale data h12 ht]
  refine ⟨_, rfl, ?_, ?_, ?_, ?_, ?_⟩
  · simp
  · simp only [List.length_map, List.length_range]
    omega
  · simp only [List.length_map, List.length_range]
    omega
  · simp only [List.length_map, List.length_range]
    omega
  · intro i hi
    simp only [List.length_map, List.length_range] at hi
    simp [List.getElem?_map, List.getElem?_range, hi]

/-- Witness for C3 at the 29-byte single-record frame. -/
theorem c3_witness :
    ∃ p, decodePacket 100 c2Frame = .ok p ∧
      p.samples.length = (c2Frame.length - 22) / 7 ∧
      (0 < p.samples.length → 12 + 7 * p.samples.length ≤ c2Frame.length - 10) ∧
      (∀ m, 12 + 7 * m ≤ c2Frame.length - 10 → m ≤ p.samples.length) ∧
      (∀ i, i < p.samples.length → 12 + 7 * i + 7 ≤ c2Frame.length - 10) ∧
      (∀ i, i < p.samples.length →
        p.samples[i]? = some (mkSample 100 c2Frame (byteAt c2Frame 7) (12 + 7 * i) i)) :=
  c3_sample_count 100 c2Frame (by decide) (by decide)

end EEG

namespace EEG

/-- C1: when the three record bytes are the little-endian encoding of a
24-bit value `v`, `decodePacket` recovers `v` unchanged if bit 23 is
clear and `v - 2 ^ 24` if bit 23 is set. -/
theorem c1_sign_extension (adcScale : ℚ) (data : List Nat) (v i : Nat)
    (h12 : 12 ≤ data.length) (ht : byteAt data 5 = 2)
    (hrec : 12 + 7 * i + 7 ≤ data.length - 10) (hv : v < 2 ^ 24)
    (hb0 : byteAt data (12 + 7 * i) = v % 256)
    (hb1 : byteAt data (12 + 7 * i + 1) = v / 256 % 256)
    (hb2 : byteAt data (12 + 7 * i + 2) = v / 65536 % 256) :
    ∃ p, decodePacket adcScale data = .ok p ∧
      ∃ s, p.samples[i]? = some s ∧
        s.rawValue = if v.testBit 23 then (v : Int) - 2 ^ 24 else (v : Int) := by
  rw [decodePacket_type2 adcScale data h12 ht]
  have hi : i < (data.length - 22) / 7 := by omega
  refine ⟨_, rfl, mkSample adcScale data (byteAt data 7) (12 + 7 * i) i, ?_, ?_⟩
  · simp [List.getElem?_map, List.getElem?_range, hi]
  · show (signExtend24 (read24LE data (12 + 7 * i))) = _
    rw [read24LE_eq data (12 + 7 * i) (by omega) (by omega), hb0, hb1, hb2]
    have henc : v % 256 + v / 256 % 256 * 256 + v / 65536 % 256 * 65536 = v := by omega
    rw [henc, signExtend24_eq v hv]
    have htb : v.testBit 23 = decide (v / 2 ^ 23 % 2 = 1) := Nat.testBit_to_div_mod
    by_cases hlt : v < 2 ^ 23
    · have : v.testBit 23 = false := by
        rw [htb]
        simp only [decide_eq_false_iff_not]
        omega
      rw [if_pos hlt, this, if_neg (by simp)]
    · have : v.testBit 23 = true := by
        rw [htb]
        simp only [decide_eq_true_eq]
        omega
      rw [if_neg hlt, this, if_pos rfl]

/-- Witness for C1 at a frame whose record carries `0x800001`
(bit 23 set), recovering `0x800001 - 2 ^ 24`. -/
theorem c1_witness :
    ∃ p, decodePacket 100 c1Frame = .ok p ∧
      ∃ s, p.samples[0]? = some s ∧
        s.rawValue = if (0x800001 : Nat).testBit 23 then ((0x800001 : Nat) : Int) - 2 ^ 24
          else ((0x800001 : Nat) : Int) :=
  c1_sign_extension 100 c1Frame 0x800001 0 (by decide) (by decide) (by decide) (by decide)
    (by decide) (by decide) (by decide)

end EEG

namespace EEG

/-- Counterexample to C2: in `c2Frame` the u16 at bytes 5..7 of the
record is 2304, whose remainder modulo the channel count 3 is 0, yet
the decoded channel is 2 — the code reads the sequence index at record
bytes 4..6, not 5..7. -/
theorem c2_counterexample :
    (decodePacket 100 c2Frame).toOption.map (fun p => p.samples.map Sample.channel) =
        some [some 2] ∧
    readUInt16LE c2Frame (12 + 5) % byteAt c2Frame 7 = 0 ∧
    (some 2 : Option Nat) ≠ some 0 := by
  decide

/-- C2 amended: the sequence index of each decoded sample is the
little-endian u16 at bytes 4..6 of its 7-byte record, the channel is
that index modulo the channel-count byte (offset 7) whenever that byte
is nonzero, and the voltage is the sign-extended raw value divided by
the configured adcScale. -/
theorem c2_channel_voltage (adcScale : ℚ) (data : List Nat) (i : Nat)
    (h12 : 12 ≤ data.length) (ht : byteAt data 5 = 2)
    (hrec : 12 + 7 * i + 7 ≤ data.length - 10) :
    ∃ p, decodePacket adcScale data = .ok p ∧
      ∃ s, p.samples[i]? = some s ∧
        s.sampleIndex = byteAt data (12 + 7 * i + 4) + byteAt data (12 + 7 * i + 5) * 256 ∧
        (byteAt data 7 ≠ 0 → s.channel = some (s.sampleIndex % byteAt data 7)) ∧
        s.voltageUv = (s.rawValue : ℚ) / adcScale := by
  rw [decodePacket_type2 adcScale data h12 ht]
  have hi : i < (data.length - 22) / 7 := by omega
  refine ⟨_, rfl, mkSample adcScale data (byteAt data 7) (12 + 7 * i) i, ?_, ?_, ?_, ?_⟩
  · simp [List.getElem?_map, List.getElem?_range, hi]
  · show readUInt16LE data (12 + 7 * i + 4) = _
    unfold readUInt16LE
    have h45 : 12 + 7 * i + 4 + 1 = 12 + 7 * i + 5 := by omega
    rw [h45]
  · intro hch
    show jsModNat (readUInt16LE data (12 + 7 * i + 4)) (byteAt data 7) = _
    rw [jsModNat, if_neg hch]
    rfl
  · rfl

/-- Witness for the amended C2 at the 29-byte single-record frame. -/
theorem c2_witness :
    ∃ p, decodePacket 100 c2Frame = .ok p ∧
      ∃ s, p.samples[0]? = some s ∧
        s.sampleIndex = byteAt c2Frame (12 + 7 * 0 + 4) + byteAt c2Frame (12 + 7 * 0 + 5) * 256 ∧
        (byteAt c2Frame 7 ≠ 0 → s.channel = some (s.sampleIndex % byteAt c2Frame 7)) ∧
        s.voltageUv = (s.rawValue : ℚ) / 100 :=
  c2_channel_voltage 100 c2Frame 0 (by decide) (by decide) (by decide)

end EEG

namespace EEG

/-- C4: a per-channel buffer at or below the capacity
`floor(windowDuration * samplingRate * 1.5)` stays at or below it
after an append; an append below capacity keeps every entry, an append
at capacity evicts exactly the oldest entry keeping the order of the
rest, and any sequence of appends starting from the empty buffer never
exceeds the capacity. -/
theorem c4_buffer_capacity (windowDuration samplingRate : ℚ) (buf : List BufferEntry)
    (e : BufferEntry)
    (h : (buf.length : ℤ) ≤ maxBufferSamples windowDuration samplingRate) :
    ((pushTrim (maxBufferSamples windowDuration samplingRate) buf e).length : ℤ) ≤
        maxBufferSamples windowDuration samplingRate ∧
    ((buf.length : ℤ) < maxBufferSamples windowDuration samplingRate →
        pushTrim (maxBufferSamples windowDuration samplingRate) buf e = buf ++ [e]) ∧
    ((buf.length : ℤ) = maxBufferSamples windowDuration samplingRate → buf ≠ [] →
        pushTrim (maxBufferSamples windowDuration samplingRate) buf e = buf.tail ++ [e]) ∧
    (∀ entries : List BufferEntry,
        ((List.foldl (pushTrim (maxBufferSamples windowDuration samplingRate)) [] entries).length :
          ℤ) ≤ maxBufferSamples windowDuration samplingRate) := by
  set M := maxBufferSamples windowDuration samplingRate with hM
  have hM0 : (0 : ℤ) ≤ M := le_trans (Int.natCast_nonneg buf.length) h
  have step : ∀ (b : List BufferEntry) (x : BufferEntry),
      (b.length : ℤ) ≤ M → ((pushTrim M b x).length : ℤ) ≤ M := by
    intro b x hb
    unfold pushTrim
    by_cases hc : (((b ++ [x]).length : ℕ) : ℤ) > M
    · rw [if_pos hc]
      simp only [List.length_tail, List.length_append, List.length_singleton]
      push_cast
      omega
    · rw [if_neg hc]
      simp only [List.length_append, List.length_singleton] at hc ⊢
      push_cast at hc ⊢
      omega
  refine ⟨step buf e h, ?_, ?_, ?_⟩
  · intro hlt
    unfold pushTrim
    rw [if_neg]
    simp only [List.length_append, List.length_singleton]
    push_cast
    omega
  · intro heq hne
    unfold pushTrim
    rw [if_pos (by simp only [List.length_append, List.length_singleton]; push_cast; omega)]
    cases buf with
    | nil => exact absurd rfl hne
    | cons a t => simp
  · have aux : ∀ (l : List BufferEntry) (b : List BufferEntry),
        (b.length : ℤ) ≤ M → ((List.foldl (pushTrim M) b l).length : ℤ) ≤ M := by
      intro l
      induction l with
      | nil => intro b hb; simpa using hb
      | cons x xs ih =>
        intro b hb
        rw [List.foldl_cons]
        exact ih _ (step b x hb)
    exact fun entries => aux entries [] (by simpa using hM0)

/-- Witness for C4 at the default configuration (window 6 s, 250 Hz,
capacity 2250) and the empty buffer. -/
theorem c4_witness :
    ((pushTrim (maxBufferSamples 6 250) [] ⟨0, 0⟩).length : ℤ) ≤ maxBufferSamples 6 250 :=
  (c4_buffer_capacity 6 250 [] ⟨0, 0⟩ (by norm_num [maxBufferSamples])).1

/-- C5: whenever the total power over the five bands is nonzero, the
five relative band powers sum to exactly 100 percent. -/
theorem c5_relative_power_sum (p : BandPowers) (h : totalPower p ≠ 0) :
    totalPower (relativePower p) = 100 := by
  simp only [totalPower, relativePower] at *
  field_simp
  ring

/-- Witness for C5 at equal band powers of 20 each. -/
theorem c5_witness : totalPower (relativePower ⟨20, 20, 20, 20, 20⟩) = 100 :=
  c5_relative_power_sum ⟨20, 20, 20, 20, 20⟩ (by norm_num [totalPower])

end EEG

namespace EEG

theorem hsRun_replicate (n m : Nat) :
    List.foldl hsStep { phase := .Streaming, packetCount := m, altSent := false }
        (List.replicate n .samplePacket) =
      { phase := .Streaming, packetCount := m + n, altSent := false } := by
  induction n generalizing m with
  | zero => simp
  | succ n ih =>
    rw [List.replicate_succ, List.foldl_cons]
    have hs : hsStep { phase := .Streaming, packetCount := m, altSent := false } .samplePacket =
        { phase := .Streaming, packetCount := m + 1, altSent := false } := by
      simp [hsStep]
    rw [hs, ih]
    congr 1
    omega

theorem hsTrace_replicate_no_alt (n : Nat) :
    ∀ m s, s ∈ List.scanl hsStep { phase := .Streaming, packetCount := m + 1, altSent := false }
        (List.replicate n .samplePacket ++ [.timeout2s]) →
      s.phase ≠ .AltStarted := by
  induction n with
  | zero =>
    intro m s hs
    simp only [List.replicate_zero, List.nil_append, List.scanl_cons, List.scanl_nil,
      List.singleton_append, List.mem_cons, List.not_mem_nil, or_false] at hs
    rcases hs with h | h
    · subst h
      simp
    · subst h
      simp [hsStep]
  | succ n ih =>
    intro m s hs
    rw [List.replicate_succ, List.cons_append, List.scanl_cons, List.singleton_append] at hs
    rcases List.mem_cons.mp hs with h | h
    · subst h
      simp
    · have hstep : hsStep { phase := .Streaming, packetCount := m + 1, altSent := false }
          .samplePacket =
          { phase := .Streaming, packetCount := m + 1 + 1, altSent := false } := by
        simp [hsStep]
      rw [hstep] at h
      exact ih (m + 1) s h

/-- C6: the handshake is deterministic in the event sequence — with no
sample packet before the 2-second timeout check the alternative start
command is issued and the run ends in AltStarted, while with at least
one sample packet before the check the alternative start command is
never issued and the run ends in Streaming without ever visiting
AltStarted. -/
theorem c6_handshake (k : Nat) :
    (k = 0 → hsRun (c6Events k) =
        { phase := .AltStarted, packetCount := 0, altSent := true }) ∧
    (0 < k → (hsRun (c6Events k)).phase = .Streaming ∧
        (hsRun (c6Events k)).altSent = false ∧
        ∀ s ∈ hsTrace (c6Events k), s.phase ≠ .AltStarted) := by
  constructor
  · intro hk
    subst hk
    decide
  · intro hk
    obtain ⟨n, rfl⟩ : ∃ n, k = n + 1 := ⟨k - 1, by omega⟩
    have hevents : c6Events (n + 1) =
        .enableNotify :: .sendStart :: .samplePacket ::
          (List.replicate n .samplePacket ++ [.timeout2s]) := by
      simp [c6Events, List.replicate_succ]
    have h1 : hsStep hsInit .enableNotify =
        { phase := .NotifyEnabled, packetCount := 0, altSent := false } := by
      simp [hsStep, hsInit]
    have h2 : hsStep { phase := .NotifyEnabled, packetCount := 0, altSent := false } .sendStart =
        { phase := .Started, packetCount := 0, altSent := false } := by
      simp [hsStep]
    have h3 : hsStep { phase := .Started, packetCount := 0, altSent := false } .samplePacket =
        { phase := .Streaming, packetCount := 0 + 1, altSent := false } := by
      simp [hsStep]
    have hrun : hsRun (c6Events (n + 1)) =
        List.foldl hsStep { phase := .Streaming, packetCount := 0 + 1, altSent := false }
          (List.replicate n .samplePacket ++ [.timeout2s]) := by
      rw [hevents, hsRun, List.foldl_cons, List.foldl_cons, List.foldl_cons, h1, h2, h3]
    have hfold : List.foldl hsStep { phase := .Streaming, packetCount := 0 + 1, altSent := false }
        (List.replicate n .samplePacket ++ [.timeout2s]) =
        { phase := .Streaming, packetCount := 0 + 1 + n, altSent := false } := by
      rw [List.foldl_append, hsRun_replicate]
      simp [hsStep]
    refine ⟨by rw [hrun, hfold], by rw [hrun, hfold], ?_⟩
    intro s hs
    rw [hevents, hsTrace, List.scanl_cons, List.scanl_cons, List.scanl_cons] at hs
    rw [h1, h2, h3] at hs
    simp only [List.singleton_append, List.mem_cons] at hs
    rcases hs with h | h | h | h
    · subst h
      simp [hsInit]
    · subst h
      simp
    · subst h
      simp
    · exact hsTrace_replicate_no_alt n 0 s h

/-- Witness for C6 at one sample packet before the timeout check. -/
theorem c6_witness :
    (hsRun (c6Events 1)).phase = .Streaming ∧ (hsRun (c6Events 1)).altSent = false ∧
      ∀ s ∈ hsTrace (c6Events 1), s.phase ≠ .AltStarted :=
  (c6_handshake 1).2 (by decide)

end EEG
